import Mathlib

/-!
# Verification of the SMASH action core (collision/event engine)

Shallow embedding of the reaction-processing core of the `smash` transport
code: `Action` (src/src/action.cc), `ScatterActionMulti`
(src/src/scatteractionmulti.cc) and the `Angles` helper
(src/src/include/Angles.h), together with theorems settling the frozen
claims about them.

Floating-point `double` arithmetic is idealised as exact arithmetic: over `ℚ`
where the code only adds, compares and branches, and over `ℝ` where it takes
square roots and trigonometric functions.  Fatal errors (`throw`, `assert`)
are modelled with `Except`; the stochastic draws (uniform variates, sampled
resonance masses) are explicit parameters.
-/

namespace Smash

/-- Reaction-type tag of a process, from the `ProcessType` enum referenced by
`action.cc` and `scatteractionmulti.cc` (`Elastic`, `Wall`, `StringSoft`,
`StringHard`, `MultiParticleThreePionsToOmega`, ...). -/
inductive ProcessType where
  | NoType
  | Elastic
  | TwoToOne
  | TwoToTwo
  | Decay
  | Wall
  | MultiParticleThreePionsToOmega
  | StringSoft
  | StringHard
  deriving DecidableEq, Repr

/-- Modelled from the spec: the distinguished photon process id
(`ID_PROCESS_PHOTON` is declared outside the given sources); photon-tagged
processes carry this reserved id, distinct from all ordinary process ids. -/
def ID_PROCESS_PHOTON : Nat := 4294967295

/-- Modelled from the spec: the tolerance constant `small_number`
(`constants.h` is outside the given sources), used by
`almost_equal_physics` for energy-momentum conservation checks. -/
def small_number : ℚ := 1 / 10000

/-- `almost_equal_physics` from src/src/include/numerics.h, instantiated at
exact rationals: relative/absolute approximate equality with tolerance
`small_number`. -/
def almost_equal_physics (x y : ℚ) : Bool :=
  |x - y| ≤ small_number ∨ |x - y| ≤ (1 / 2) * small_number * (|x| + |y|)

/-- A four-vector with exact rational components (idealising `FourVector`
over `double`). -/
structure FourVecQ where
  x0 : ℚ
  x1 : ℚ
  x2 : ℚ
  x3 : ℚ
  deriving DecidableEq, Repr

instance : Add FourVecQ :=
  ⟨fun p q => ⟨p.x0 + q.x0, p.x1 + q.x1, p.x2 + q.x2, p.x3 + q.x3⟩⟩

instance : Zero FourVecQ := ⟨⟨0, 0, 0, 0⟩⟩

/-- Interaction history of a particle, as stamped by
`ParticleData::set_history` (called from `Action::perform`): collision
count, id/type/time of the last process, and back-references to the parent
particles (recorded here by particle id). -/
structure HistoryData where
  collisions_per_particle : Nat
  id_process : Nat
  process_type : ProcessType
  time_last_collision : ℚ
  parents : List Nat
  deriving DecidableEq, Repr

/-- A particle record (exact-arithmetic idealisation of `ParticleData`):
identity, four-momentum, four-position, conserved charges of its species
(baryon number, electric charge, strangeness) and its interaction history. -/
structure Particle where
  id : Nat
  momentum : FourVecQ
  position : FourVecQ
  baryon_number : ℤ
  charge : ℤ
  strangeness : ℤ
  history : HistoryData
  deriving DecidableEq, Repr

/-- `ParticleData::is_baryon()`: the particle's species carries non-zero
baryon number. -/
def Particle.is_baryon (p : Particle) : Bool := p.baryon_number ≠ 0

/-- Modelled from the spec: the quantum snapshot (`QuantumNumbers`,
declared outside the given sources) — the aggregate total four-momentum and
conserved charges of a particle list, used only for before/after
comparison. -/
structure QuantumNumbers where
  momentum : FourVecQ
  baryon_number : ℤ
  charge : ℤ
  strangeness : ℤ
  deriving DecidableEq, Repr

/-- Modelled from the spec: the `QuantumNumbers` constructor from a particle
list — componentwise totals over the list. -/
def qnOf (l : List Particle) : QuantumNumbers where
  momentum := (l.map Particle.momentum).foldr (· + ·) 0
  baryon_number := (l.map Particle.baryon_number).sum
  charge := (l.map Particle.charge).sum
  strangeness := (l.map Particle.strangeness).sum

/-- Modelled from the spec: `QuantumNumbers` inequality — the four-momentum
components are compared with the `almost_equal_physics` tolerance of
src/src/include/numerics.h, the integer charges exactly. -/
def qnMismatch (a b : QuantumNumbers) : Bool :=
  !(almost_equal_physics a.momentum.x0 b.momentum.x0 &&
    almost_equal_physics a.momentum.x1 b.momentum.x1 &&
    almost_equal_physics a.momentum.x2 b.momentum.x2 &&
    almost_equal_physics a.momentum.x3 b.momentum.x3 &&
    decide (a.baryon_number = b.baryon_number) &&
    decide (a.charge = b.charge) &&
    decide (a.strangeness = b.strangeness))

/-- Outcome of `Action::check_conservation` (src/src/action.cc): either the
snapshots agree (`ok`), or they disagree and the violation is only logged
(string processes), or a `std::runtime_error` is thrown — a distinct message
kind for the photon process id (`photonViolation`) versus every other
process id (`violation id`). -/
inductive ConsOutcome where
  | ok
  | logOnly
  | photonViolation
  | violation (id_process : Nat)
  deriving DecidableEq, Repr

/-- Whether the outcome of the conservation check is a thrown
`std::runtime_error` (rather than a normal return). -/
def ConsOutcome.is_fatal : ConsOutcome → Bool
  | .photonViolation => true
  | .violation _ => true
  | _ => false

/-- `Action::check_conservation` (src/src/action.cc): compare the quantum
snapshots of the incoming and outgoing lists; on mismatch, log; string
fragmentation processes then return normally, a photon process id throws
the photon error, every other process id throws the generic error. -/
def check_conservation (incoming outgoing : List Particle)
    (process_type : ProcessType) (id_process : Nat) : ConsOutcome :=
  if qnMismatch (qnOf incoming) (qnOf outgoing) then
    if process_type = ProcessType.StringSoft ∨
        process_type = ProcessType.StringHard then
      ConsOutcome.logOnly
    else if id_process = ID_PROCESS_PHOTON then
      ConsOutcome.photonViolation
    else
      ConsOutcome.violation id_process
  else
    ConsOutcome.ok

/-- The loop of `Action::is_pauli_blocked` (src/src/action.cc): walk the
outgoing particles; for each baryon, query the phase-space density `dens`
and draw one fresh uniform variate (`draws k` is the `k`-th draw); return
`true` as soon as the density exceeds the draw, `false` if no baryon
blocks. -/
def pauliLoop (dens : Particle → ℚ) (draws : Nat → ℚ) :
    List Particle → Nat → Bool
  | [], _ => false
  | p :: ps, k =>
      if p.is_baryon then
        if dens p > draws k then true else pauliLoop dens draws ps (k + 1)
      else
        pauliLoop dens draws ps k

/-- `Action::is_pauli_blocked` (src/src/action.cc): wall-crossing actions
are never blocked; otherwise the outgoing baryons are tested in order
against fresh uniform draws, short-circuiting at the first blocked one. -/
def is_pauli_blocked (process_type : ProcessType) (dens : Particle → ℚ)
    (draws : Nat → ℚ) (outgoing : List Particle) : Bool :=
  if process_type = ProcessType.Wall then false
  else pauliLoop dens draws outgoing 0

/-- A particle species (`ParticleType`), with the attributes `sample_masses`
reads: pole mass, minimum kinematic mass, stability flag. -/
structure ParticleType where
  mass : ℚ
  min_mass_kinematic : ℚ
  is_stable : Bool
  deriving DecidableEq, Repr

/-- The ways `Action::sample_masses` can fail: the thrown
`InvalidResonanceFormation` ("not enough energy"), and the undefined
out-of-bounds read `incoming_particles_[1]` performed while composing that
error message when the action has fewer than two incoming particles. -/
inductive SampleMassErr where
  | invalidResonanceFormation
  | indexOutOfBounds
  deriving DecidableEq, Repr

/-- `Action::sample_masses` (src/src/action.cc).  The species of the two
outgoing particles are `t_a`, `t_b`; `cms_kin_energy` is the value of
`kinetic_energy_cms()`; the stochastic resonance-mass samplers are passed
in as the values they return (`res_mass_a`, `res_mass_b` for the
one-resonance branches, `res_masses_ab` for the two-resonance branch).
The insufficient-energy path builds its diagnostic reaction name from
`incoming_particles_[0]` and `incoming_particles_[1]`; those raw
`operator[]` accesses are modelled by `List.get?`, an out-of-range access
being the distinguished error `indexOutOfBounds`. -/
def sample_masses (incoming : List ParticleType) (t_a t_b : ParticleType)
    (cms_kin_energy : ℚ) (res_mass_a res_mass_b : ℚ)
    (res_masses_ab : ℚ × ℚ) : Except SampleMassErr (ℚ × ℚ) :=
  if cms_kin_energy < t_a.min_mass_kinematic + t_b.min_mass_kinematic then
    match incoming[0]?, incoming[1]? with
    | some _, some _ => Except.error SampleMassErr.invalidResonanceFormation
    | _, _ => Except.error SampleMassErr.indexOutOfBounds
  else if !t_a.is_stable && t_b.is_stable then
    Except.ok (res_mass_a, t_b.mass)
  else if !t_b.is_stable && t_a.is_stable then
    Except.ok (t_a.mass, res_mass_b)
  else if !t_a.is_stable && !t_b.is_stable then
    Except.ok res_masses_ab
  else
    Except.ok (t_a.mass, t_b.mass)

/-- `ParticleData::set_history` as called from `Action::perform`: increment
the collision count and stamp the process id, process type, execution time
and the incoming particles (by id) onto the particle. -/
def set_history (id_process : Nat) (process_type : ProcessType)
    (time_of_execution : ℚ) (incoming : List Particle) (p : Particle) :
    Particle :=
  { p with
    history :=
      { collisions_per_particle := p.history.collisions_per_particle + 1
        id_process := id_process
        process_type := process_type
        time_last_collision := time_of_execution
        parents := incoming.map Particle.id } }

/-- The state of an `Action` as read by `Action::perform`: incoming and
outgoing particle lists, process type, time of execution, and the two
optional potential-lattice references (`UB_lat_`, `UI3_lat_`; `none`
models a null pointer). -/
structure ActionState where
  incoming : List Particle
  outgoing : List Particle
  process_type : ProcessType
  time_of_execution : ℚ
  UB_lat : Option Unit
  UI3_lat : Option Unit

/-- The error of `Action::perform`: the `assert(id_process != 0)`
precondition at its entry. -/
inductive PerformErr where
  | assertZeroProcessId
  deriving DecidableEq, Repr

/-- The observable effects of one `Action::perform` call: the outgoing
particles after history stamping, the boolean passed to
`Particles::update` (`true` = remove incoming identities and reinsert new
ones, `false` = in-place update of the same identities), and the outcome
of the conservation check (`none` when the check was skipped because a
potential lattice is attached). -/
structure PerformEffects where
  stamped_outgoing : List Particle
  remove_and_reinsert : Bool
  conservation : Option ConsOutcome
  deriving DecidableEq, Repr

/-- `Action::perform` (src/src/action.cc): assert a non-zero process id;
stamp history on every outgoing particle except for wall crossings; update
the collection in place exactly for elastic and wall processes, otherwise
remove-and-reinsert; run the conservation check if and only if neither
potential lattice is attached. -/
def perform (a : ActionState) (id_process : Nat) :
    Except PerformErr PerformEffects :=
  if id_process = 0 then Except.error PerformErr.assertZeroProcessId
  else
    let stamped := a.outgoing.map fun p =>
      if a.process_type ≠ ProcessType.Wall then
        set_history id_process a.process_type a.time_of_execution
          a.incoming p
      else p
    Except.ok
      { stamped_outgoing := stamped
        remove_and_reinsert :=
          a.process_type ≠ ProcessType.Elastic ∧
            a.process_type ≠ ProcessType.Wall
        conservation :=
          if a.UB_lat = none ∧ a.UI3_lat = none then
            some (check_conservation a.incoming stamped a.process_type
              id_process)
          else none }

/-! ## Real-valued kinematics

The sampling and boosting code takes square roots and evaluates
trigonometric functions, so it is idealised over `ℝ`. -/

/-- The `Angles` class of src/src/include/Angles.h: an azimuthal angle and
the cosine of the polar angle. -/
structure Angles where
  phi : ℝ
  costheta : ℝ

/-- `Angles::distribute_isotropically`: from two uniform `[0,1)` draws,
`phi = 2*pi*r1` and `costheta = -1 + 2*r2`. -/
noncomputable def Angles.distribute_isotropically (r1 r2 : ℝ) : Angles :=
  ⟨2 * Real.pi * r1, -1 + 2 * r2⟩

/-- `Angles::set_phi`: store the angle, folded into `[0, 2*pi)` by
subtracting `2*pi*floor(phi/(2*pi))` when it lies outside; `costheta` is
untouched. -/
noncomputable def Angles.set_phi (a : Angles) (newphi : ℝ) : Angles :=
  { a with
    phi :=
      if newphi < 0 ∨ newphi ≥ 2 * Real.pi then
        newphi - 2 * Real.pi * ⌊newphi / (2 * Real.pi)⌋
      else newphi }

/-- `Angles::set_costheta`: store the cosine, rejecting (`throw`) any value
outside `[-1, 1]`; `phi` is untouched. -/
noncomputable def Angles.set_costheta (a : Angles) (newcos : ℝ) : Except String Angles :=
  if newcos < -1 ∨ newcos > 1 then
    Except.error "Wrong value for costheta (must be in [-1,1])"
  else
    Except.ok { a with costheta := newcos }

/-- `Angles::set_theta`: delegate to `set_costheta` with `cos(theta)`. -/
noncomputable def Angles.set_theta (a : Angles) (newtheta : ℝ) : Except String Angles :=
  a.set_costheta (Real.cos newtheta)

/-- `Angles::sintheta`: `sqrt(1 - costheta^2)`. -/
noncomputable def Angles.sintheta (a : Angles) : ℝ :=
  Real.sqrt (1 - a.costheta * a.costheta)

/-- `Angles::x`: `sintheta * cos(phi)`. -/
noncomputable def Angles.x (a : Angles) : ℝ := a.sintheta * Real.cos a.phi

/-- `Angles::y`: `sintheta * sin(phi)`. -/
noncomputable def Angles.y (a : Angles) : ℝ := a.sintheta * Real.sin a.phi

/-- `Angles::z`: `costheta`. -/
def Angles.z (a : Angles) : ℝ := a.costheta

/-- A spatial three-vector over `ℝ` (`ThreeVector`). -/
@[ext]
structure ThreeVec where
  x1 : ℝ
  x2 : ℝ
  x3 : ℝ

instance : Add ThreeVec :=
  ⟨fun u v => ⟨u.x1 + v.x1, u.x2 + v.x2, u.x3 + v.x3⟩⟩

instance : Neg ThreeVec := ⟨fun u => ⟨-u.x1, -u.x2, -u.x3⟩⟩

instance : Zero ThreeVec := ⟨⟨0, 0, 0⟩⟩

/-- Scalar multiple of a three-vector (`ThreeVector * double`). -/
def ThreeVec.smul (c : ℝ) (u : ThreeVec) : ThreeVec :=
  ⟨c * u.x1, c * u.x2, c * u.x3⟩

/-- Dot product of two three-vectors (`ThreeVector * ThreeVector`). -/
def ThreeVec.dot (u v : ThreeVec) : ℝ :=
  u.x1 * v.x1 + u.x2 * v.x2 + u.x3 * v.x3

/-- `Angles::threevec`: the direction `(x, y, z)` packed as a
three-vector. -/
noncomputable def Angles.threevec (a : Angles) : ThreeVec := ⟨a.x, a.y, a.z⟩

/-- A four-vector over `ℝ` (`FourVector` where square roots are taken). -/
@[ext]
structure FourVecR where
  x0 : ℝ
  x1 : ℝ
  x2 : ℝ
  x3 : ℝ

instance : Add FourVecR :=
  ⟨fun p q => ⟨p.x0 + q.x0, p.x1 + q.x1, p.x2 + q.x2, p.x3 + q.x3⟩⟩

instance : Zero FourVecR := ⟨⟨0, 0, 0, 0⟩⟩

/-- `FourVector::threevec`: the spatial part. -/
def FourVecR.threevec (p : FourVecR) : ThreeVec := ⟨p.x1, p.x2, p.x3⟩

/-- `FourVector::sqr`: the Minkowski square `x0^2 - x⃗^2`. -/
def FourVecR.sqr (p : FourVecR) : ℝ :=
  p.x0 * p.x0 - p.x1 * p.x1 - p.x2 * p.x2 - p.x3 * p.x3

/-- Modelled from the spec: `FourVector::abs`, the invariant mass
`sqrt(p.sqr())` of a four-momentum (the `FourVector` implementation is
outside the given sources). -/
noncomputable def FourVecR.abs (p : FourVecR) : ℝ := Real.sqrt p.sqr

/-- Modelled from the spec: `FourVector::velocity`, the three-velocity
`threevec / x0` of a four-momentum. -/
noncomputable def FourVecR.velocity (p : FourVecR) : ThreeVec :=
  ThreeVec.smul (1 / p.x0) p.threevec

/-- Division of a four-vector by a scalar (`FourVector::operator/=`, used
for the mean in `Action::get_interaction_point`). -/
noncomputable def FourVecR.divScalar (p : FourVecR) (c : ℝ) : FourVecR :=
  ⟨p.x0 / c, p.x1 / c, p.x2 / c, p.x3 / c⟩

/-- Modelled from the spec: the Lorentz factor of `FourVector::LorentzBoost`
(outside the given sources) — `gamma = 1/sqrt(1 - v^2)` for `v^2 < 1` and
the degenerate guard value `0` otherwise. -/
noncomputable def boostGamma (v : ThreeVec) : ℝ :=
  if v.dot v < 1 then 1 / Real.sqrt (1 - v.dot v) else 0

/-- The boosted time component `gamma * (x0 - x⃗ · v)` of
`FourVector::LorentzBoost`. -/
noncomputable def boostXPrime0 (p : FourVecR) (v : ThreeVec) : ℝ :=
  boostGamma v * (p.x0 - p.threevec.dot v)

/-- The shared factor `gamma / (gamma + 1) * (xprime_0 + x0)` of
`FourVector::LorentzBoost`. -/
noncomputable def boostConstantPart (p : FourVecR) (v : ThreeVec) : ℝ :=
  boostGamma v / (boostGamma v + 1) * (boostXPrime0 p v + p.x0)

/-- Modelled from the spec: `FourVector::LorentzBoost` (outside the given
sources) — the pure Lorentz boost of a four-vector by a boost velocity
`v`. -/
noncomputable def FourVecR.lorentzBoost (p : FourVecR) (v : ThreeVec) :
    FourVecR :=
  ⟨boostXPrime0 p v,
    p.x1 - boostConstantPart p v * v.x1,
    p.x2 - boostConstantPart p v * v.x2,
    p.x3 - boostConstantPart p v * v.x3⟩

/-- Modelled from the spec: `ParticleData::set_4momentum(mass, threevec)`
(outside the given sources) — a four-momentum with the given invariant mass
and spatial momentum, `x0 = sqrt(mass^2 + p⃗^2)`. -/
noncomputable def set_4momentum (mass : ℝ) (mom : ThreeVec) : FourVecR :=
  ⟨Real.sqrt (mass * mass + mom.dot mom), mom.x1, mom.x2, mom.x3⟩

/-- Modelled from the spec: `pCM_sqr` of kinematics.h (outside the given
sources) — the squared two-body CM momentum from the relativistic two-body
kinematics formula, for CM energy `srts` and masses `m_a`, `m_b`. -/
noncomputable def pCM_sqr (srts m_a m_b : ℝ) : ℝ :=
  let s := srts * srts
  let x := s + m_a * m_a - m_b * m_b
  x * x * (1 / 4 / s) - m_a * m_a

/-- Modelled from the spec: `pCM` of kinematics.h — the two-body CM momentum
magnitude `sqrt(pCM_sqr)`. -/
noncomputable def pCM (srts m_a m_b : ℝ) : ℝ :=
  Real.sqrt (pCM_sqr srts m_a m_b)

/-- `Action::sample_angles` (src/src/action.cc): given the CM energy and
the two sampled masses, compute `pcm` and assign the first outgoing
particle the four-momentum with mass `m_a` and momentum `+pcm * n` and the
second the one with mass `m_b` and momentum `-pcm * n`, where `n` is the
sampled isotropic direction.  (The non-positive-momentum case is only a
logged warning and does not change the assignment.) -/
noncomputable def sample_angles (cms_kin_energy : ℝ) (masses : ℝ × ℝ)
    (phitheta : Angles) : FourVecR × FourVecR :=
  let pcm := pCM cms_kin_energy masses.1 masses.2
  (set_4momentum masses.1 (ThreeVec.smul pcm phitheta.threevec),
    set_4momentum masses.2 (ThreeVec.smul (-pcm) phitheta.threevec))

/-! ## The multi-particle action (`ScatterActionMulti`) -/

/-- The particle record as read by `ScatterActionMulti`: PDG code (an
integer), four-momentum and four-position over `ℝ`. -/
structure PData where
  pdg : ℤ
  momentum : FourVecR
  position : FourVecR

/-- Modelled from the spec: `PdgCode::is_pion` (outside the given
sources) — the code is one of the three pion charge states
(pi0 = 111, pi+ = 211, pi- = -211). -/
def is_pion (pdg : ℤ) : Bool := pdg = 111 ∨ pdg = 211 ∨ pdg = -211

/-- `ScatterActionMulti::three_different_pions`
(src/src/scatteractionmulti.cc): all three particles are pions with
pairwise distinct PDG codes. -/
def three_different_pions (data_a data_b data_c : PData) : Bool :=
  (is_pion data_a.pdg && is_pion data_b.pdg && is_pion data_c.pdg) &&
    (data_a.pdg ≠ data_b.pdg && data_b.pdg ≠ data_c.pdg &&
      data_c.pdg ≠ data_a.pdg)

/-- `Action::get_interaction_point` (src/src/action.cc): the arithmetic mean
of the incoming four-positions. -/
noncomputable def get_interaction_point (incoming : List PData) : FourVecR :=
  FourVecR.divScalar ((incoming.map PData.position).foldr (· + ·) 0)
    incoming.length

/-- Modelled from the spec: `total_momentum_of_outgoing_particles` (outside
the given sources) — for this action it is the combined four-momentum of
the incoming particles. -/
def total_momentum_of_outgoing_particles (incoming : List PData) :
    FourVecR :=
  (incoming.map PData.momentum).foldr (· + ·) 0

/-- The fatal error of `ScatterActionMulti`
(`InvalidScatterActionMulti`): a wrong outgoing-particle count in
`annihilation`, or an unrecognised process type in
`generate_final_state`. -/
inductive ScatterMultiErr where
  | wrongOutgoingCount (n : Nat)
  | invalidProcessType
  deriving DecidableEq, Repr

/-- `ScatterActionMulti::annihilation` (src/src/scatteractionmulti.cc):
require exactly one outgoing particle, then set its four-momentum to
`(P.abs, 0, 0, 0)` — at rest in the combined frame, with the invariant
mass of the total momentum `P`. -/
noncomputable def annihilation (outgoing : List PData) (total_p : FourVecR) :
    Except ScatterMultiErr (List PData) :=
  match outgoing with
  | [p] => Except.ok [{ p with momentum := ⟨total_p.abs, 0, 0, 0⟩ }]
  | l => Except.error (ScatterMultiErr.wrongOutgoingCount l.length)

/-- `ScatterActionMulti::generate_final_state`
(src/src/scatteractionmulti.cc), after the channel has been chosen (the
chosen channel's outgoing list and process type are arguments): dispatch on
the process type (`MultiParticleThreePionsToOmega` runs `annihilation`, any
other type is fatal), then boost every outgoing particle by the negative of
the total outgoing momentum's velocity and place it at the interaction
point. -/
noncomputable def generate_final_state (incoming : List PData)
    (chosen_outgoing : List PData) (process_type : ProcessType) :
    Except ScatterMultiErr (List PData) := do
  let after_kinematics ←
    match process_type with
    | ProcessType.MultiParticleThreePionsToOmega =>
        annihilation chosen_outgoing
          (total_momentum_of_outgoing_particles incoming)
    | _ => Except.error ScatterMultiErr.invalidProcessType
  let middle_point := get_interaction_point incoming
  let v := (total_momentum_of_outgoing_particles incoming).velocity
  pure (after_kinematics.map fun p =>
    { p with momentum := p.momentum.lorentzBoost (-v),
             position := middle_point })

/-! ## Concrete inputs for instantiating the theorems -/

/-- A concrete baryon (proton-like) particle record. -/
def protonEx : Particle :=
  ⟨1, ⟨1, 0, 0, 0⟩, ⟨0, 0, 0, 0⟩, 1, 1, 0, ⟨0, 0, ProcessType.NoType, 0, []⟩⟩

/-- A concrete stable light species. -/
def stableTypeA : ParticleType := ⟨1, 1, true⟩

/-- A second concrete stable species. -/
def stableTypeB : ParticleType := ⟨2, 2, true⟩

/-- A concrete action state with no potential lattices attached. -/
def actionEx : ActionState :=
  ⟨[protonEx], [protonEx], ProcessType.Elastic, 0, none, none⟩

/-- A concrete charged pion at rest-like kinematics. -/
noncomputable def piPlusEx : PData := ⟨211, ⟨2, 0, 0, 0⟩, ⟨0, 0, 0, 0⟩⟩

/-- A concrete negative pion. -/
noncomputable def piMinusEx : PData := ⟨-211, ⟨2, 0, 0, 0⟩, ⟨0, 0, 0, 0⟩⟩

/-- A concrete neutral pion. -/
noncomputable def piZeroEx : PData := ⟨111, ⟨1, 0, 0, 0⟩, ⟨0, 0, 0, 0⟩⟩

/-- The representation invariant of `Angles`: the stored cosine of the polar
angle lies in `[-1, 1]`. -/
def AnglesInv (a : Angles) : Prop := -1 ≤ a.costheta ∧ a.costheta ≤ 1

/-! ## Theorems -/

/-- C8: for every particle collection and every action, a call to `perform`
with process id `0` fails immediately (the `assert(id_process != 0)`
precondition at its entry), before any mutation of the collection — the
result is the bare assertion error carrying no effects. -/
theorem perform_zero_process_id_fails (a : ActionState) :
    perform a 0 = Except.error PerformErr.assertZeroProcessId := by
  simp [perform]

/-- C6: for every action (with a legal process id), `perform` runs the
conservation check if and only if both potential lattice references are
absent; whenever at least one is attached the check is skipped. -/
theorem perform_conservation_iff_no_potentials (a : ActionState)
    (id_process : Nat) (hid : id_process ≠ 0) :
    ∃ e, perform a id_process = Except.ok e ∧
      ((∃ r, e.conservation = some r) ↔
        (a.UB_lat = none ∧ a.UI3_lat = none)) ∧
      (a.UB_lat = none ∧ a.UI3_lat = none →
        e.conservation = some (check_conservation a.incoming
          e.stamped_outgoing a.process_type id_process)) ∧
      (¬(a.UB_lat = none ∧ a.UI3_lat = none) → e.conservation = none) := by
  unfold perform
  rw [if_neg hid]
  refine ⟨_, rfl, ?_, ?_, ?_⟩
  · by_cases h : a.UB_lat = none ∧ a.UI3_lat = none <;> simp [h]
  · intro h; simp [h]
  · intro h; simp [h]

/-- C6 witness: at a concrete action with no lattices and process id 7. -/
theorem perform_conservation_iff_no_potentials_witness :
    (7 : Nat) ≠ 0 ∧
      ∃ e, perform actionEx 7 = Except.ok e ∧
        ((∃ r, e.conservation = some r) ↔
          (actionEx.UB_lat = none ∧ actionEx.UI3_lat = none)) ∧
        (actionEx.UB_lat = none ∧ actionEx.UI3_lat = none →
          e.conservation = some (check_conservation actionEx.incoming
            e.stamped_outgoing actionEx.process_type 7)) ∧
        (¬(actionEx.UB_lat = none ∧ actionEx.UI3_lat = none) →
          e.conservation = none) :=
  ⟨by decide, perform_conservation_iff_no_potentials actionEx 7 (by decide)⟩

/-- C7: for every action (with a legal process id), `perform` commits with
an in-place update (no remove-and-reinsert) exactly for the elastic and
wall process types, and stamps history (incremented collision count,
process id/type/time, incoming back-references) on every outgoing particle
exactly when the process type is not wall-crossing. -/
theorem perform_update_mode_and_history (a : ActionState) (id_process : Nat)
    (hid : id_process ≠ 0) :
    ∃ e, perform a id_process = Except.ok e ∧
      (e.remove_and_reinsert = false ↔
        (a.process_type = ProcessType.Elastic ∨
          a.process_type = ProcessType.Wall)) ∧
      (a.process_type ≠ ProcessType.Wall →
        e.stamped_outgoing = a.outgoing.map
          (set_history id_process a.process_type a.time_of_execution
            a.incoming)) ∧
      (a.process_type = ProcessType.Wall →
        e.stamped_outgoing = a.outgoing) := by
  unfold perform
  rw [if_neg hid]
  refine ⟨_, rfl, ?_, ?_, ?_⟩
  · by_cases hE : a.process_type = ProcessType.Elastic <;>
      by_cases hW : a.process_type = ProcessType.Wall <;>
      simp [hE, hW]
  · intro h; simp [h]
  · intro h; simp [h]

/-- C7 witness: at a concrete elastic action with process id 7. -/
theorem perform_update_mode_and_history_witness :
    (7 : Nat) ≠ 0 ∧
      ∃ e, perform actionEx 7 = Except.ok e ∧
        (e.remove_and_reinsert = false ↔
          (actionEx.process_type = ProcessType.Elastic ∨
            actionEx.process_type = ProcessType.Wall)) ∧
        (actionEx.process_type ≠ ProcessType.Wall →
          e.stamped_outgoing = actionEx.outgoing.map
            (set_history 7 actionEx.process_type actionEx.time_of_execution
              actionEx.incoming)) ∧
        (actionEx.process_type = ProcessType.Wall →
          e.stamped_outgoing = actionEx.outgoing) :=
  ⟨by decide, perform_update_mode_and_history actionEx 7 (by decide)⟩

/-- C1: for every action whose incoming/outgoing quantum snapshots disagree
beyond tolerance, `check_conservation` throws if and only if the process
type is neither soft nor hard string fragmentation (for those it logs and
returns normally); and when it throws, the photon process id yields a
failure kind distinct from the kind produced for every other process id. -/
theorem check_conservation_spec (incoming outgoing : List Particle)
    (pt : ProcessType) (id_process : Nat)
    (hmm : qnMismatch (qnOf incoming) (qnOf outgoing) = true) :
    ((check_conservation incoming outgoing pt id_process).is_fatal = true ↔
      (pt ≠ ProcessType.StringSoft ∧ pt ≠ ProcessType.StringHard)) ∧
    (pt = ProcessType.StringSoft ∨ pt = ProcessType.StringHard →
      check_conservation incoming outgoing pt id_process =
        ConsOutcome.logOnly) ∧
    (pt ≠ ProcessType.StringSoft → pt ≠ ProcessType.StringHard →
      (id_process = ID_PROCESS_PHOTON →
        check_conservation incoming outgoing pt id_process =
          ConsOutcome.photonViolation) ∧
      (id_process ≠ ID_PROCESS_PHOTON →
        check_conservation incoming outgoing pt id_process =
          ConsOutcome.violation id_process)) ∧
    ConsOutcome.photonViolation ≠ ConsOutcome.violation id_process := by
  unfold check_conservation
  rw [if_pos hmm]
  by_cases hs : pt = ProcessType.StringSoft ∨ pt = ProcessType.StringHard
  · rw [if_pos hs]
    refine ⟨⟨fun hf => ?_, fun h => ?_⟩, fun _ => rfl, fun h1 h2 => ?_, by simp⟩
    · simp [ConsOutcome.is_fatal] at hf
    · rcases hs with h0 | h0
      · exact absurd h0 h.1
      · exact absurd h0 h.2
    · rcases hs with h0 | h0
      · exact absurd h0 h1
      · exact absurd h0 h2
  · rw [if_neg hs]
    push_neg at hs
    obtain ⟨hs1, hs2⟩ := hs
    by_cases hid : id_process = ID_PROCESS_PHOTON
    · rw [if_pos hid]
      refine ⟨?_, fun h => ?_, fun _ _ => ⟨fun _ => rfl, fun h => absurd hid h⟩,
        by simp⟩
      · simp [ConsOutcome.is_fatal, hs1, hs2]
      · rcases h with h0 | h0
        · exact absurd h0 hs1
        · exact absurd h0 hs2
    · rw [if_neg hid]
      refine ⟨?_, fun h => ?_, fun _ _ => ⟨fun h => absurd h hid, fun _ => rfl⟩,
        by simp⟩
      · simp [ConsOutcome.is_fatal, hs1, hs2]
      · rcases h with h0 | h0
        · exact absurd h0 hs1
        · exact absurd h0 hs2

/-- C1 witness: a one-baryon incoming list against an empty outgoing list
(momentum and charges both clearly violated), elastic type, process id 7. -/
theorem check_conservation_spec_witness :
    qnMismatch (qnOf [protonEx]) (qnOf []) = true ∧
      ((check_conservation [protonEx] [] ProcessType.Elastic 7).is_fatal =
          true ↔
        (ProcessType.Elastic ≠ ProcessType.StringSoft ∧
          ProcessType.Elastic ≠ ProcessType.StringHard)) ∧
      (ProcessType.Elastic = ProcessType.StringSoft ∨
          ProcessType.Elastic = ProcessType.StringHard →
        check_conservation [protonEx] [] ProcessType.Elastic 7 =
          ConsOutcome.logOnly) ∧
      (ProcessType.Elastic ≠ ProcessType.StringSoft →
        ProcessType.Elastic ≠ ProcessType.StringHard →
        ((7 : Nat) = ID_PROCESS_PHOTON →
          check_conservation [protonEx] [] ProcessType.Elastic 7 =
            ConsOutcome.photonViolation) ∧
        ((7 : Nat) ≠ ID_PROCESS_PHOTON →
          check_conservation [protonEx] [] ProcessType.Elastic 7 =
            ConsOutcome.violation 7)) ∧
      ConsOutcome.photonViolation ≠ ConsOutcome.violation 7 :=
  ⟨by simp [qnMismatch, qnOf, protonEx, almost_equal_physics, small_number],
    check_conservation_spec [protonEx] [] ProcessType.Elastic 7
      (by simp [qnMismatch, qnOf, protonEx, almost_equal_physics,
        small_number])⟩

/-- C5: for every action with a two-particle outgoing list (and at least the
two incoming particles that the error path reads), `sample_masses` fails
with the insufficient-energy error if and only if the available CM kinetic
energy is strictly below the sum of the two outgoing species' minimum
kinematic masses; when it does not fail and both species are stable, it
returns both pole masses unchanged. -/
theorem sample_masses_spec (incoming : List ParticleType)
    (t_a t_b : ParticleType) (cms res_a res_b : ℚ) (res_ab : ℚ × ℚ)
    (h2 : 2 ≤ incoming.length) :
    (sample_masses incoming t_a t_b cms res_a res_b res_ab =
        Except.error SampleMassErr.invalidResonanceFormation ↔
      cms < t_a.min_mass_kinematic + t_b.min_mass_kinematic) ∧
    (t_a.is_stable = true → t_b.is_stable = true →
      ¬cms < t_a.min_mass_kinematic + t_b.min_mass_kinematic →
      sample_masses incoming t_a t_b cms res_a res_b res_ab =
        Except.ok (t_a.mass, t_b.mass)) := by
  have h0 : incoming[0]? = some (incoming.get ⟨0, by omega⟩) :=
    List.getElem?_eq_getElem (by omega)
  have h1 : incoming[1]? = some (incoming.get ⟨1, by omega⟩) :=
    List.getElem?_eq_getElem (by omega)
  constructor
  · by_cases hlt : cms < t_a.min_mass_kinematic + t_b.min_mass_kinematic
    · simp [sample_masses, if_pos hlt, h0, h1, hlt]
    · simp only [sample_masses, if_neg hlt]
      constructor
      · intro h
        by_cases ha : t_a.is_stable <;> by_cases hb : t_b.is_stable <;>
          simp [ha, hb] at h
      · intro h
        exact absurd h hlt
  · intro ha hb hlt
    simp [sample_masses, if_neg hlt, ha, hb]

/-- C5 witness: two stable species with pole masses 1 and 2, CM energy 5
(above threshold), a two-particle incoming list. -/
theorem sample_masses_spec_witness :
    2 ≤ [stableTypeA, stableTypeB].length ∧
      (sample_masses [stableTypeA, stableTypeB] stableTypeA stableTypeB 5 0 0
          (0, 0) = Except.error SampleMassErr.invalidResonanceFormation ↔
        (5 : ℚ) < stableTypeA.min_mass_kinematic +
          stableTypeB.min_mass_kinematic) ∧
      (stableTypeA.is_stable = true → stableTypeB.is_stable = true →
        ¬(5 : ℚ) < stableTypeA.min_mass_kinematic +
          stableTypeB.min_mass_kinematic →
        sample_masses [stableTypeA, stableTypeB] stableTypeA stableTypeB 5 0 0
          (0, 0) = Except.ok (stableTypeA.mass, stableTypeB.mass)) :=
  ⟨by decide,
    sample_masses_spec [stableTypeA, stableTypeB] stableTypeA stableTypeB 5 0
      0 (0, 0) (by decide)⟩

/-- C9: the insufficient-energy error path of `sample_masses` reads both the
first and the second incoming particle to build the diagnostic reaction
name; for a single-incoming (decay-like) action whose CM energy is below
threshold the second read is out of bounds, while with at least two
incoming particles the out-of-bounds error can never occur. -/
theorem sample_masses_oob (incoming : List ParticleType)
    (t_a t_b : ParticleType) (cms res_a res_b : ℚ) (res_ab : ℚ × ℚ) :
    (incoming.length = 1 →
      cms < t_a.min_mass_kinematic + t_b.min_mass_kinematic →
      sample_masses incoming t_a t_b cms res_a res_b res_ab =
        Except.error SampleMassErr.indexOutOfBounds) ∧
    (2 ≤ incoming.length →
      sample_masses incoming t_a t_b cms res_a res_b res_ab ≠
        Except.error SampleMassErr.indexOutOfBounds) := by
  constructor
  · intro hlen hlt
    have h1 : incoming[1]? = none := List.getElem?_eq_none (by omega)
    have h0 : incoming[0]? = some (incoming.get ⟨0, by omega⟩) :=
      List.getElem?_eq_getElem (by omega)
    simp [sample_masses, if_pos hlt, h0, h1]
  · intro h2
    have h0 : incoming[0]? = some (incoming.get ⟨0, by omega⟩) :=
      List.getElem?_eq_getElem (by omega)
    have h1 : incoming[1]? = some (incoming.get ⟨1, by omega⟩) :=
      List.getElem?_eq_getElem (by omega)
    by_cases hlt : cms < t_a.min_mass_kinematic + t_b.min_mass_kinematic
    · simp [sample_masses, if_pos hlt, h0, h1]
    · simp only [sample_masses, if_neg hlt]
      by_cases ha : t_a.is_stable <;> by_cases hb : t_b.is_stable <;>
        simp [ha, hb]

/-- C9 witness: a single-pion-like incoming list with CM energy 0, below
the threshold 3 of the two outgoing species. -/
theorem sample_masses_oob_witness :
    ([stableTypeA].length = 1 ∧
      (0 : ℚ) < stableTypeA.min_mass_kinematic +
        stableTypeB.min_mass_kinematic ∧
      sample_masses [stableTypeA] stableTypeA stableTypeB 0 0 0 (0, 0) =
        Except.error SampleMassErr.indexOutOfBounds) ∧
    (2 ≤ [stableTypeA, stableTypeB].length ∧
      sample_masses [stableTypeA, stableTypeB] stableTypeA stableTypeB 0 0 0
        (0, 0) ≠ Except.error SampleMassErr.indexOutOfBounds) :=
  ⟨⟨by decide, by norm_num [stableTypeA, stableTypeB],
      (sample_masses_oob [stableTypeA] stableTypeA stableTypeB 0 0 0
        (0, 0)).1 (by decide) (by norm_num [stableTypeA, stableTypeB])⟩,
    ⟨by decide,
      (sample_masses_oob [stableTypeA, stableTypeB] stableTypeA stableTypeB 0
        0 0 (0, 0)).2 (by decide)⟩⟩

/-- The Pauli-blocking loop blocks exactly when some baryon of the list (in
list order, the `i`-th baryon being tested against the draw with index
`k + i`) has a phase-space density exceeding its uniform draw. -/
theorem pauliLoop_eq_true_iff (dens : Particle → ℚ) (draws : Nat → ℚ)
    (l : List Particle) (k : Nat) :
    pauliLoop dens draws l k = true ↔
      ∃ i, ∃ h : i < (l.filter fun p => p.is_baryon).length,
        dens ((l.filter fun p => p.is_baryon).get ⟨i, h⟩) > draws (k + i) := by
  induction l generalizing k with
  | nil => simp [pauliLoop]
  | cons p ps ih =>
    by_cases hp : p.is_baryon
    · rw [show (p :: ps).filter (fun q => q.is_baryon) =
          p :: ps.filter (fun q => q.is_baryon) from
        List.filter_cons_of_pos hp]
      by_cases hgt : dens p > draws k
      · simp only [pauliLoop, hp, if_true, hgt]
        constructor
        · intro _
          exact ⟨0, by simp, by simpa using hgt⟩
        · intro _
          trivial
      · simp only [pauliLoop, hp, if_true, hgt, if_false]
        rw [ih (k + 1)]
        constructor
        · rintro ⟨i, hi, hd⟩
          refine ⟨i + 1, by simpa using hi, ?_⟩
          simpa [Nat.add_assoc, Nat.add_comm 1 i] using hd
        · rintro ⟨i, hi, hd⟩
          cases i with
          | zero => exact absurd (by simpa using hd) hgt
          | succ j =>
            refine ⟨j, by simpa using hi, ?_⟩
            simpa [Nat.add_assoc, Nat.add_comm 1 j] using hd
    · rw [show (p :: ps).filter (fun q => q.is_baryon) =
          ps.filter (fun q => q.is_baryon) from
        List.filter_cons_of_neg (by simpa using hp)]
      simp only [pauliLoop, hp, if_false]
      exact ih k

/-- C2: wall-crossing actions are never Pauli-blocked regardless of density
and outgoing particles; for non-wall actions a zero phase-space density for
every outgoing baryon never blocks (for draws in `[0,1)`), a density of `1`
for some outgoing baryon always blocks (for draws in `[0,1)`), and in
general the action is blocked if and only if some outgoing baryon's queried
density exceeds its uniform draw (the loop short-circuiting at the first
such baryon). -/
theorem is_pauli_blocked_spec (pt : ProcessType) (dens : Particle → ℚ)
    (draws : Nat → ℚ) (outgoing : List Particle) :
    (pt = ProcessType.Wall →
      is_pauli_blocked pt dens draws outgoing = false) ∧
    (pt ≠ ProcessType.Wall →
      ((∀ p ∈ outgoing, p.is_baryon = true → dens p = 0) →
        (∀ k, 0 ≤ draws k) →
        is_pauli_blocked pt dens draws outgoing = false) ∧
      ((∃ p ∈ outgoing, p.is_baryon = true ∧ dens p = 1) →
        (∀ k, draws k < 1) →
        is_pauli_blocked pt dens draws outgoing = true) ∧
      (is_pauli_blocked pt dens draws outgoing = true ↔
        ∃ i, ∃ h : i < (outgoing.filter fun p => p.is_baryon).length,
          dens ((outgoing.filter fun p => p.is_baryon).get ⟨i, h⟩) >
            draws i)) := by
  constructor
  · intro h
    simp [is_pauli_blocked, h]
  · intro hw
    have hloop : is_pauli_blocked pt dens draws outgoing =
        pauliLoop dens draws outgoing 0 := by
      simp [is_pauli_blocked, hw]
    have hiff := pauliLoop_eq_true_iff dens draws outgoing 0
    simp only [Nat.zero_add] at hiff
    refine ⟨?_, ?_, ?_⟩
    · intro hzero hnn
      rw [hloop]
      rw [Bool.eq_false_iff]
      intro htrue
      obtain ⟨i, hi, hd⟩ := hiff.mp htrue
      have hmem : ((outgoing.filter fun p => p.is_baryon).get ⟨i, hi⟩) ∈
          outgoing.filter fun p => p.is_baryon :=
        List.mem_iff_get.mpr ⟨⟨i, hi⟩, rfl⟩
      have hmem2 := List.mem_filter.mp hmem
      have := hzero _ hmem2.1 (by simpa using hmem2.2)
      rw [this] at hd
      exact absurd hd (not_lt.mpr (hnn i))
    · rintro ⟨p, hpmem, hpb, hpd⟩ hlt1
      rw [hloop, hiff]
      have hmem : p ∈ outgoing.filter fun q => q.is_baryon :=
        List.mem_filter.mpr ⟨hpmem, by simpa using hpb⟩
      obtain ⟨n, hn⟩ := List.mem_iff_get.mp hmem
      exact ⟨n.val, n.isLt, by rw [Fin.eta, hn, hpd]; exact hlt1 n.val⟩
    · rw [hloop]
      exact hiff

/-- C2 witness: a wall action on a density-one baryon is not blocked, a
zero density never blocks an elastic action, and a density of one always
blocks it, at the draw stream constantly `1/2`. -/
theorem is_pauli_blocked_spec_witness :
    (is_pauli_blocked ProcessType.Wall (fun _ => 1) (fun _ => 1 / 2)
        [protonEx] = false) ∧
    (is_pauli_blocked ProcessType.Elastic (fun _ => 0) (fun _ => 1 / 2)
        [protonEx] = false) ∧
    (is_pauli_blocked ProcessType.Elastic (fun _ => 1) (fun _ => 1 / 2)
        [protonEx] = true) :=
  ⟨(is_pauli_blocked_spec ProcessType.Wall (fun _ => 1) (fun _ => 1 / 2)
      [protonEx]).1 rfl,
    ((is_pauli_blocked_spec ProcessType.Elastic (fun _ => 0)
        (fun _ => 1 / 2) [protonEx]).2 (by decide)).1
      (fun _ _ _ => rfl) (fun _ => by norm_num),
    (((is_pauli_blocked_spec ProcessType.Elastic (fun _ => 1)
        (fun _ => 1 / 2) [protonEx]).2 (by decide)).2).1
      ⟨protonEx, by simp, by simp [protonEx, Particle.is_baryon], rfl⟩
      (fun _ => by norm_num)⟩

/-- `sintheta * sintheta = 1 - costheta * costheta` when the stored cosine
is in range. -/
theorem Angles.sintheta_sq (a : Angles) (h1 : -1 ≤ a.costheta)
    (h2 : a.costheta ≤ 1) :
    a.sintheta * a.sintheta = 1 - a.costheta * a.costheta :=
  Real.mul_self_sqrt (by nlinarith)

/-- The direction `(x, y, z)` of an in-range `Angles` value is a unit
vector. -/
theorem Angles.dir_norm_sq (a : Angles) (h1 : -1 ≤ a.costheta)
    (h2 : a.costheta ≤ 1) :
    a.x * a.x + a.y * a.y + a.z * a.z = 1 := by
  have hs := Angles.sintheta_sq a h1 h2
  unfold Angles.x Angles.y Angles.z
  linear_combination
    (a.sintheta * a.sintheta) * Real.sin_sq_add_cos_sq a.phi + hs

/-- C10: for every `Angles` value whose stored cosine lies in `[-1, 1]` the
direction components form a unit vector and `sintheta` is non-negative;
this in-range invariant is established by `distribute_isotropically` (from
uniform `[0,1)` draws) and preserved by `set_phi`, `set_costheta` and
`set_theta`. -/
theorem Angles_unit_vector_invariant (a : Angles)
    (r1 r2 newphi newcos newtheta : ℝ) :
    (AnglesInv a →
      a.x * a.x + a.y * a.y + a.z * a.z = 1 ∧ 0 ≤ a.sintheta) ∧
    (0 ≤ r2 → r2 ≤ 1 →
      AnglesInv (Angles.distribute_isotropically r1 r2)) ∧
    (AnglesInv a → AnglesInv (a.set_phi newphi)) ∧
    (∀ b, a.set_costheta newcos = Except.ok b → AnglesInv b) ∧
    (∀ b, a.set_theta newtheta = Except.ok b → AnglesInv b) := by
  refine ⟨?_, ?_, ?_, ?_, ?_⟩
  · rintro ⟨h1, h2⟩
    exact ⟨Angles.dir_norm_sq a h1 h2, Real.sqrt_nonneg _⟩
  · intro hr1 hr2
    constructor <;> simp [Angles.distribute_isotropically] <;> linarith
  · rintro ⟨h1, h2⟩
    exact ⟨by simpa [Angles.set_phi] using h1,
      by simpa [Angles.set_phi] using h2⟩
  · intro b hb
    by_cases h : newcos < -1 ∨ newcos > 1
    · rw [Angles.set_costheta, if_pos h] at hb
      cases hb
    · rw [Angles.set_costheta, if_neg h] at hb
      injection hb with hb2
      push_neg at h
      exact ⟨by simp [← hb2]; exact h.1, by simp [← hb2]; exact h.2⟩
  · intro b hb
    have hcond : ¬(Real.cos newtheta < -1 ∨ Real.cos newtheta > 1) := by
      push_neg
      exact ⟨Real.neg_one_le_cos newtheta, Real.cos_le_one newtheta⟩
    rw [Angles.set_theta, Angles.set_costheta, if_neg hcond] at hb
    injection hb with hb2
    exact ⟨by simp [← hb2]; exact Real.neg_one_le_cos newtheta,
      by simp [← hb2]; exact Real.cos_le_one newtheta⟩

/-- C10 witness: at the `Angles` value `(0, 0)` and the draw `1/2`. -/
theorem Angles_unit_vector_invariant_witness :
    AnglesInv ⟨0, 0⟩ ∧ (0 : ℝ) ≤ 1 / 2 ∧ (1 / 2 : ℝ) ≤ 1 ∧
    ((⟨0, 0⟩ : Angles).x * (⟨0, 0⟩ : Angles).x +
        (⟨0, 0⟩ : Angles).y * (⟨0, 0⟩ : Angles).y +
        (⟨0, 0⟩ : Angles).z * (⟨0, 0⟩ : Angles).z = 1 ∧
      0 ≤ (⟨0, 0⟩ : Angles).sintheta) ∧
    AnglesInv (Angles.distribute_isotropically 0 (1 / 2)) :=
  ⟨⟨by norm_num, by norm_num⟩, by norm_num, by norm_num,
    (Angles_unit_vector_invariant ⟨0, 0⟩ 0 (1 / 2) 7 0 0).1
      ⟨by norm_num, by norm_num⟩,
    ((Angles_unit_vector_invariant ⟨0, 0⟩ 0 (1 / 2) 7 0 0).2).1
      (by norm_num) (by norm_num)⟩

theorem threeVec_add_components (u v : ThreeVec) :
    u + v = ⟨u.x1 + v.x1, u.x2 + v.x2, u.x3 + v.x3⟩ := rfl

theorem threeVec_zero_components : (0 : ThreeVec) = ⟨0, 0, 0⟩ := rfl

theorem fourVecR_add_components (p q : FourVecR) :
    p + q = ⟨p.x0 + q.x0, p.x1 + q.x1, p.x2 + q.x2, p.x3 + q.x3⟩ := rfl

theorem fourVecR_zero_components : (0 : FourVecR) = ⟨0, 0, 0, 0⟩ := rfl

theorem ThreeVec.smul_dot_self (c : ℝ) (u : ThreeVec) :
    (ThreeVec.smul c u).dot (ThreeVec.smul c u) = c * c * u.dot u := by
  simp only [ThreeVec.smul, ThreeVec.dot]
  ring

theorem ThreeVec.dot_self_nonneg (u : ThreeVec) : 0 ≤ u.dot u := by
  simp only [ThreeVec.dot]
  nlinarith [sq_nonneg u.x1, sq_nonneg u.x2, sq_nonneg u.x3]

/-- The four-momentum built by `set_4momentum` is on the mass shell: its
Minkowski square is the given mass squared. -/
theorem set_4momentum_sqr (m : ℝ) (mom : ThreeVec) :
    (set_4momentum m mom).sqr = m * m := by
  have hnn : 0 ≤ m * m + mom.dot mom := by
    have := ThreeVec.dot_self_nonneg mom
    nlinarith
  simp only [set_4momentum, FourVecR.sqr]
  rw [Real.mul_self_sqrt hnn]
  simp only [ThreeVec.dot]
  ring

/-- C4: for a two-body final state with masses `m_a`, `m_b` and CM energy
`E ≥ m_a + m_b`, `sample_angles` assigns the first particle the
four-momentum of mass `m_a` with three-momentum `+pcm*n` and the second the
one of mass `m_b` with `-pcm*n` for the single sampled direction `n`, so
the outgoing three-momenta sum to zero, the outgoing energies sum to `E`,
and both particles are on their mass shells — for every sampled angle
draw. -/
theorem sample_angles_spec (E m_a m_b : ℝ) (phitheta : Angles)
    (ha : 0 ≤ m_a) (hb : 0 ≤ m_b) (hE : 0 < E) (hsum : m_a + m_b ≤ E)
    (hc1 : -1 ≤ phitheta.costheta) (hc2 : phitheta.costheta ≤ 1) :
    (sample_angles E (m_a, m_b) phitheta).1 =
      set_4momentum m_a
        (ThreeVec.smul (pCM E m_a m_b) phitheta.threevec) ∧
    (sample_angles E (m_a, m_b) phitheta).2 =
      set_4momentum m_b
        (ThreeVec.smul (-pCM E m_a m_b) phitheta.threevec) ∧
    (sample_angles E (m_a, m_b) phitheta).1.threevec +
      (sample_angles E (m_a, m_b) phitheta).2.threevec = 0 ∧
    (sample_angles E (m_a, m_b) phitheta).1.x0 +
      (sample_angles E (m_a, m_b) phitheta).2.x0 = E ∧
    (sample_angles E (m_a, m_b) phitheta).1.sqr = m_a * m_a ∧
    (sample_angles E (m_a, m_b) phitheta).2.sqr = m_b * m_b := by
  have hEne : E ≠ 0 := ne_of_gt hE
  have hn : phitheta.threevec.dot phitheta.threevec = 1 := by
    have h := Angles.dir_norm_sq phitheta hc1 hc2
    simpa [Angles.threevec, ThreeVec.dot] using h
  have hxa : 0 ≤ E * E + m_a * m_a - m_b * m_b := by nlinarith
  have hxb : 0 ≤ E * E + m_b * m_b - m_a * m_a := by nlinarith
  have hpsq : pCM_sqr E m_a m_b =
      ((E * E + m_a * m_a - m_b * m_b) / (2 * E)) *
        ((E * E + m_a * m_a - m_b * m_b) / (2 * E)) - m_a * m_a := by
    simp only [pCM_sqr]
    field_simp
    ring
  have hAm : m_a ≤ (E * E + m_a * m_a - m_b * m_b) / (2 * E) := by
    rw [le_div_iff₀ (by positivity)]
    nlinarith
  have hpnn : 0 ≤ pCM_sqr E m_a m_b := by
    rw [hpsq]
    nlinarith
  have hpcm2 : pCM E m_a m_b * pCM E m_a m_b = pCM_sqr E m_a m_b :=
    Real.mul_self_sqrt hpnn
  have hdot1 : (ThreeVec.smul (pCM E m_a m_b) phitheta.threevec).dot
      (ThreeVec.smul (pCM E m_a m_b) phitheta.threevec) =
        pCM_sqr E m_a m_b := by
    rw [ThreeVec.smul_dot_self, hn, mul_one]
    exact hpcm2
  have hdot2 : (ThreeVec.smul (-pCM E m_a m_b) phitheta.threevec).dot
      (ThreeVec.smul (-pCM E m_a m_b) phitheta.threevec) =
        pCM_sqr E m_a m_b := by
    rw [ThreeVec.smul_dot_self, hn, mul_one, neg_mul_neg]
    exact hpcm2
  have hEa : Real.sqrt (m_a * m_a + pCM_sqr E m_a m_b) =
      (E * E + m_a * m_a - m_b * m_b) / (2 * E) := by
    have h1 : m_a * m_a + pCM_sqr E m_a m_b =
        ((E * E + m_a * m_a - m_b * m_b) / (2 * E)) *
          ((E * E + m_a * m_a - m_b * m_b) / (2 * E)) := by
      rw [hpsq]
      ring
    rw [h1]
    exact Real.sqrt_mul_self (div_nonneg hxa (by positivity))
  have hEb : Real.sqrt (m_b * m_b + pCM_sqr E m_a m_b) =
      (E * E + m_b * m_b - m_a * m_a) / (2 * E) := by
    have h1 : m_b * m_b + pCM_sqr E m_a m_b =
        ((E * E + m_b * m_b - m_a * m_a) / (2 * E)) *
          ((E * E + m_b * m_b - m_a * m_a) / (2 * E)) := by
      rw [hpsq]
      field_simp
      ring
    rw [h1]
    exact Real.sqrt_mul_self (div_nonneg hxb (by positivity))
  refine ⟨rfl, rfl, ?_, ?_, ?_, ?_⟩
  · ext <;>
      simp [sample_angles, set_4momentum, FourVecR.threevec,
        ThreeVec.smul, threeVec_add_components, threeVec_zero_components]
  · show Real.sqrt (m_a * m_a + _) + Real.sqrt (m_b * m_b + _) = E
    rw [hdot1, hdot2, hEa, hEb]
    field_simp
    ring
  · exact set_4momentum_sqr m_a _
  · exact set_4momentum_sqr m_b _

/-- C4 witness: CM energy `3`, both masses `1`, direction from the `Angles`
value `(0, 0)`. -/
theorem sample_angles_spec_witness :
    ((0 : ℝ) ≤ 1 ∧ (0 : ℝ) < 3 ∧ (1 : ℝ) + 1 ≤ 3 ∧
      -1 ≤ (⟨0, 0⟩ : Angles).costheta ∧ (⟨0, 0⟩ : Angles).costheta ≤ 1) ∧
    (sample_angles 3 (1, 1) ⟨0, 0⟩).1.threevec +
      (sample_angles 3 (1, 1) ⟨0, 0⟩).2.threevec = 0 ∧
    (sample_angles 3 (1, 1) ⟨0, 0⟩).1.x0 +
      (sample_angles 3 (1, 1) ⟨0, 0⟩).2.x0 = 3 ∧
    (sample_angles 3 (1, 1) ⟨0, 0⟩).1.sqr = 1 * 1 := by
  have h := sample_angles_spec 3 1 1 ⟨0, 0⟩ (by norm_num) (by norm_num)
    (by norm_num) (by norm_num) (by norm_num) (by norm_num)
  exact ⟨⟨by norm_num, by norm_num, by norm_num, by norm_num, by norm_num⟩,
    h.2.2.1, h.2.2.2.1, h.2.2.2.2.1⟩

theorem ThreeVec.neg_def (u : ThreeVec) : -u = ⟨-u.x1, -u.x2, -u.x3⟩ := rfl

/-- Boosting the rest-frame four-momentum `(P.abs, 0, 0, 0)` by the negative
of `P`'s velocity recovers `P` itself, for every timelike `P` with positive
energy. -/
theorem lorentzBoost_rest_recovers (P : FourVecR) (hE : 0 < P.x0)
    (hm : 0 < P.sqr) :
    FourVecR.lorentzBoost ⟨P.abs, 0, 0, 0⟩ (-P.velocity) = P := by
  have hEne : P.x0 ≠ 0 := ne_of_gt hE
  have hm2 : P.abs * P.abs = P.sqr := Real.mul_self_sqrt hm.le
  have hmpos : 0 < P.abs := Real.sqrt_pos.mpr hm
  have hmne : P.abs ≠ 0 := ne_of_gt hmpos
  have hsqr : P.sqr =
      P.x0 * P.x0 - (P.x1 * P.x1 + P.x2 * P.x2 + P.x3 * P.x3) := by
    simp only [FourVecR.sqr]
    ring
  have hvv : (-P.velocity).dot (-P.velocity) =
      (P.x1 * P.x1 + P.x2 * P.x2 + P.x3 * P.x3) / (P.x0 * P.x0) := by
    simp only [FourVecR.velocity, FourVecR.threevec, ThreeVec.smul,
      ThreeVec.neg_def, ThreeVec.dot]
    field_simp
  have hslt : P.x1 * P.x1 + P.x2 * P.x2 + P.x3 * P.x3 < P.x0 * P.x0 := by
    nlinarith [hm, hsqr]
  have hvlt : (-P.velocity).dot (-P.velocity) < 1 := by
    rw [hvv, div_lt_one (by positivity)]
    exact hslt
  have h1v : 1 - (-P.velocity).dot (-P.velocity) =
      (P.abs / P.x0) * (P.abs / P.x0) := by
    have habs2 : (P.abs / P.x0) * (P.abs / P.x0) =
        P.sqr / (P.x0 * P.x0) := by
      rw [div_mul_div_comm, hm2]
    rw [hvv, habs2, hsqr]
    field_simp
  have hgam : boostGamma (-P.velocity) = P.x0 / P.abs := by
    rw [boostGamma, if_pos hvlt, h1v,
      Real.sqrt_mul_self (div_nonneg hmpos.le hE.le), one_div_div]
  have hx0 : boostXPrime0 ⟨P.abs, 0, 0, 0⟩ (-P.velocity) = P.x0 := by
    rw [boostXPrime0, hgam]
    simp only [FourVecR.threevec, ThreeVec.dot, ThreeVec.neg_def,
      FourVecR.velocity, ThreeVec.smul]
    field_simp
  have hsumne : P.x0 / P.abs + 1 ≠ 0 := by
    have h1 : 0 < P.x0 / P.abs := div_pos hE hmpos
    linarith
  have hcp : boostConstantPart ⟨P.abs, 0, 0, 0⟩ (-P.velocity) = P.x0 := by
    rw [boostConstantPart, hgam, hx0]
    show P.x0 / P.abs / (P.x0 / P.abs + 1) * (P.x0 + P.abs) = P.x0
    have hPm : (0 : ℝ) < P.x0 + P.abs := by linarith
    rw [div_add_one hmne]
    field_simp [ne_of_gt hPm]
  ext
  · exact hx0
  · show (⟨P.abs, 0, 0, 0⟩ : FourVecR).x1 -
        boostConstantPart ⟨P.abs, 0, 0, 0⟩ (-P.velocity) *
          (-P.velocity).x1 = P.x1
    rw [hcp]
    simp only [FourVecR.velocity, FourVecR.threevec, ThreeVec.smul,
      ThreeVec.neg_def]
    field_simp
  · show (⟨P.abs, 0, 0, 0⟩ : FourVecR).x2 -
        boostConstantPart ⟨P.abs, 0, 0, 0⟩ (-P.velocity) *
          (-P.velocity).x2 = P.x2
    rw [hcp]
    simp only [FourVecR.velocity, FourVecR.threevec, ThreeVec.smul,
      ThreeVec.neg_def]
    field_simp
  · show (⟨P.abs, 0, 0, 0⟩ : FourVecR).x3 -
        boostConstantPart ⟨P.abs, 0, 0, 0⟩ (-P.velocity) *
          (-P.velocity).x3 = P.x3
    rw [hcp]
    simp only [FourVecR.velocity, FourVecR.threevec, ThreeVec.smul,
      ThreeVec.neg_def]
    field_simp

/-- C3: for a multi-particle action on three incoming pions of pairwise
distinct charge states with combined incoming four-momentum `P`,
final-state generation for the three-pions-to-omega process first puts the
single outgoing particle at rest with invariant mass `P.abs`
(`annihilation`), requires exactly one outgoing particle (any other count
is the fatal wrong-count error), and produces one particle whose
four-momentum is exactly `P`, positioned at the mean incoming
four-position. -/
theorem generate_final_state_three_pions_spec (p1 p2 p3 q : PData)
    (hpi : three_different_pions p1 p2 p3 = true)
    (hE : 0 < (total_momentum_of_outgoing_particles [p1, p2, p3]).x0)
    (hm : 0 < (total_momentum_of_outgoing_particles [p1, p2, p3]).sqr) :
    (annihilation [q] (total_momentum_of_outgoing_particles [p1, p2, p3]) =
      Except.ok [{ q with momentum :=
        ⟨(total_momentum_of_outgoing_particles [p1, p2, p3]).abs,
          0, 0, 0⟩ }]) ∧
    (∀ out : List PData, out.length ≠ 1 →
      generate_final_state [p1, p2, p3] out
          ProcessType.MultiParticleThreePionsToOmega =
        Except.error (ScatterMultiErr.wrongOutgoingCount out.length)) ∧
    (∃ qf, generate_final_state [p1, p2, p3] [q]
          ProcessType.MultiParticleThreePionsToOmega = Except.ok [qf] ∧
      qf.momentum = total_momentum_of_outgoing_particles [p1, p2, p3] ∧
      qf.position = FourVecR.divScalar
        (p1.position + p2.position + p3.position) 3) := by
  refine ⟨rfl, ?_, ?_⟩
  · intro out hlen
    cases out with
    | nil => rfl
    | cons a t =>
      cases t with
      | nil => simp at hlen
      | cons b t2 => rfl
  · refine ⟨_, rfl, ?_, ?_⟩
    · show FourVecR.lorentzBoost
        ⟨(total_momentum_of_outgoing_particles [p1, p2, p3]).abs, 0, 0, 0⟩
        (-(total_momentum_of_outgoing_particles [p1, p2, p3]).velocity) = _
      exact lorentzBoost_rest_recovers _ hE hm
    · show get_interaction_point [p1, p2, p3] = _
      ext <;>
        simp [get_interaction_point, FourVecR.divScalar, fourVecR_add_components,
          fourVecR_zero_components] <;>
        ring

/-- C3 witness: the three concrete pions `pi+`, `pi-`, `pi0` with momentum
sum `(5, 0, 0, 0)`. -/
theorem generate_final_state_three_pions_spec_witness :
    three_different_pions piPlusEx piMinusEx piZeroEx = true ∧
    0 < (total_momentum_of_outgoing_particles
      [piPlusEx, piMinusEx, piZeroEx]).x0 ∧
    0 < (total_momentum_of_outgoing_particles
      [piPlusEx, piMinusEx, piZeroEx]).sqr ∧
    (∃ qf, generate_final_state [piPlusEx, piMinusEx, piZeroEx] [piZeroEx]
          ProcessType.MultiParticleThreePionsToOmega = Except.ok [qf] ∧
      qf.momentum = total_momentum_of_outgoing_particles
        [piPlusEx, piMinusEx, piZeroEx] ∧
      qf.position = FourVecR.divScalar
        (piPlusEx.position + piMinusEx.position + piZeroEx.position) 3) := by
  have h1 : three_different_pions piPlusEx piMinusEx piZeroEx = true := by
    simp [three_different_pions, is_pion, piPlusEx, piMinusEx, piZeroEx]
  have h2 : 0 < (total_momentum_of_outgoing_particles
      [piPlusEx, piMinusEx, piZeroEx]).x0 := by
    simp [total_momentum_of_outgoing_particles, piPlusEx, piMinusEx,
      piZeroEx, fourVecR_add_components, fourVecR_zero_components]
    norm_num
  have h3 : 0 < (total_momentum_of_outgoing_particles
      [piPlusEx, piMinusEx, piZeroEx]).sqr := by
    simp [total_momentum_of_outgoing_particles, piPlusEx, piMinusEx,
      piZeroEx, fourVecR_add_components, fourVecR_zero_components, FourVecR.sqr]
    norm_num
  exact ⟨h1, h2, h3,
    (generate_final_state_three_pions_spec piPlusEx piMinusEx piZeroEx
      piZeroEx h1 h2 h3).2.2⟩

end Smash
